import Mathlib

/-!
Verification of the Arabic password-candidate generators:
shallow embedding of the morphological filter and the root-pattern
engine from `filter_arabic.py`, `gen_arabic_pairs.py`,
`gen_from_roots.py` and `gen_arabic_passwords.py`, with theorems about
the claims of the specification.

Strings are modelled as `List Char`; the Arabic letters are named
constants built from their Unicode code points.
-/

/-- The letter ا (alef, U+0627). -/
def arAlef : Char := Char.ofNat 0x627
/-- The letter ب (baa, U+0628). -/
def arBa : Char := Char.ofNat 0x628
/-- The letter ت (taa, U+062A). -/
def arTa : Char := Char.ofNat 0x62A
/-- The letter ح (haa, U+062D). -/
def arHha : Char := Char.ofNat 0x62D
/-- The letter د (dal, U+062F). -/
def arDal : Char := Char.ofNat 0x62F
/-- The letter س (seen, U+0633). -/
def arSin : Char := Char.ofNat 0x633
/-- The letter ع (ain, U+0639). -/
def arAyn : Char := Char.ofNat 0x639
/-- The letter ف (faa, U+0641). -/
def arFa : Char := Char.ofNat 0x641
/-- The letter ك (kaf, U+0643). -/
def arKaf : Char := Char.ofNat 0x643
/-- The letter ل (lam, U+0644). -/
def arLam : Char := Char.ofNat 0x644
/-- The letter م (meem, U+0645). -/
def arMim : Char := Char.ofNat 0x645
/-- The letter ن (noon, U+0646). -/
def arNun : Char := Char.ofNat 0x646
/-- The letter و (waw, U+0648). -/
def arWaw : Char := Char.ofNat 0x648
/-- The letter ي (yaa, U+064A). -/
def arYa : Char := Char.ofNat 0x64A
/-- The letter ء (hamza, U+0621). -/
def arHamza : Char := Char.ofNat 0x621
/-- The letter ؤ (waw with hamza above, U+0624). -/
def arWawHamza : Char := Char.ofNat 0x624
/-- The letter ئ (yaa with hamza above, U+0626). -/
def arYaHamza : Char := Char.ofNat 0x626
/-- The letter ة (taa marbuta, U+0629). -/
def arTaM : Char := Char.ofNat 0x629
/-- The letter ى (alef maqsura, U+0649). -/
def arMaqsura : Char := Char.ofNat 0x649
/-- The diacritic shadda (gemination marker, U+0651). -/
def arShadda : Char := Char.ofNat 0x651

/-- `VOWELS = frozenset('اوي')`, the vowel-letter set shared by
`filter_arabic.py` and `gen_arabic_pairs.py`. -/
def VOWELS : List Char := [arAlef, arWaw, arYa]

/-- `BAD_DOUBLES = frozenset(['اا', 'وو', 'يي', 'ءء'])`, shared by all four
scripts. -/
def BAD_DOUBLES : List (List Char) :=
  [[arAlef, arAlef], [arWaw, arWaw], [arYa, arYa], [arHamza, arHamza]]

namespace FilterArabic

/-- `is_likely_arabic_word` of `filter_arabic.py` (the standalone filter):
reject the empty string; reject length ≥ 4 without a vowel letter; reject a
banned doubled bigram; reject hamza strictly inside; reject ة or ى at a
non-final position; reject an initial ؤ or ئ; otherwise accept.
Python's substring test `bad in seq` is `bad <:+: seq`, `seq[1:-1]` is
`(seq.drop 1).dropLast` and `seq[:-1]` is `seq.dropLast`. -/
def is_likely_arabic_word : List Char → Bool
  | [] => false
  | first :: tail =>
    if 4 ≤ (first :: tail).length ∧
        (first :: tail).any (fun c => decide (c ∈ VOWELS)) = false then false
    else if BAD_DOUBLES.any (fun bad => decide (bad <:+: (first :: tail))) then false
    else if 2 < (first :: tail).length ∧
        arHamza ∈ ((first :: tail).drop 1).dropLast then false
    else if arTaM ∈ (first :: tail).dropLast ∨
        arMaqsura ∈ (first :: tail).dropLast then false
    else if first = arWawHamza ∨ first = arYaHamza then false
    else true

end FilterArabic

namespace GenArabicPairs

/-- `is_likely_arabic_word` of `gen_arabic_pairs.py` (the generation-time
variant): same first three rules as the standalone filter, but no
empty-string check, no ة/ى positional rule and no initial-ؤ/ئ rule. -/
def is_likely_arabic_word (seq : List Char) : Bool :=
  if 4 ≤ seq.length ∧ seq.any (fun c => decide (c ∈ VOWELS)) = false then false
  else if BAD_DOUBLES.any (fun bad => decide (bad <:+: seq)) then false
  else if 2 < seq.length ∧ arHamza ∈ (seq.drop 1).dropLast then false
  else true

end GenArabicPairs

namespace GenFromRoots

/-- The loop body of `apply_pattern` in `gen_from_roots.py`: walk the
pattern, appending to `result` the root letter for a slot marker (ف/ع/ل),
a copy of the last emitted character for a shadda (`if result:
result.append(result[-1])`, a no-op on an empty `result`), and any other
symbol literally. -/
def applyLoop (f ain lam : Char) : List Char → List Char → List Char
  | [], result => result
  | c :: rest, result =>
    if c = arFa then applyLoop f ain lam rest (result ++ [f])
    else if c = arAyn then applyLoop f ain lam rest (result ++ [ain])
    else if c = arLam then applyLoop f ain lam rest (result ++ [lam])
    else if c = arShadda then applyLoop f ain lam rest (result ++ result.getLast?.toList)
    else applyLoop f ain lam rest (result ++ [c])

/-- `apply_pattern` of `gen_from_roots.py`: `None` unless the root has
exactly 3 characters, otherwise the concatenation produced by the loop. -/
def apply_pattern (root pattern : List Char) : Option (List Char) :=
  match root with
  | [f, ain, lam] => some (applyLoop f ain lam pattern [])
  | _ => none

end GenFromRoots

namespace GenArabicPasswords

/-- One step of the `for c in pattern` loop of `apply_pattern` in
`gen_arabic_passwords.py`: a slot marker becomes the corresponding root
letter, every other symbol (including the shadda, which this variant does
not special-case) is kept literally. -/
def substChar (f ain lam c : Char) : Char :=
  if c = arFa then f
  else if c = arAyn then ain
  else if c = arLam then lam
  else c

/-- `apply_pattern` of `gen_arabic_passwords.py`: `None` unless the root
has exactly 3 characters, otherwise the pattern with each slot marker
replaced by the root letter. This variant has no shadda branch. -/
def apply_pattern (root pattern : List Char) : Option (List Char) :=
  match root with
  | [f, ain, lam] => some (pattern.map (substChar f ain lam))
  | _ => none

/-- The adjacent-identical-letter scan of `has_bad_doubles`:
`word[i] == word[i+1] and word[i] in 'اويء'` for some `i`. -/
def hasBadAdjacent : List Char → Bool
  | c1 :: c2 :: rest =>
    (c1 = c2 ∧ c1 ∈ [arAlef, arWaw, arYa, arHamza]) || hasBadAdjacent (c2 :: rest)
  | _ => false

/-- `has_bad_doubles` of `gen_arabic_passwords.py` (identical logic in
`gen_from_roots.py`): a banned doubled bigram occurs, or some adjacent
pair of identical vowel/hamza letters occurs. -/
def has_bad_doubles (word : List Char) : Bool :=
  BAD_DOUBLES.any (fun bad => decide (bad <:+: word)) || hasBadAdjacent word

/-- The body of `generate_root_words`, recursing over the (root, pattern)
pairs in Cartesian-product order with the `seen` set as an accumulator:
yield a word when pattern application produced a non-empty string not yet
seen and without bad doubles, adding it to `seen`. -/
def grwAux : List (List Char × List Char) → List (List Char) → List (List Char)
  | [], _ => []
  | (root, pattern) :: rest, seen =>
    match apply_pattern root pattern with
    | none => grwAux rest seen
    | some word =>
      if word ≠ [] ∧ word ∉ seen ∧ has_bad_doubles word = false then
        word :: grwAux rest (word :: seen)
      else grwAux rest seen

/-- `generate_root_words(roots, patterns)` of `gen_arabic_passwords.py`:
the deduplicated word sequence over the Cartesian product of roots and
patterns (outer loop over roots, inner loop over patterns). -/
def generate_root_words (roots patterns : List (List Char)) : List (List Char) :=
  grwAux (roots.flatMap (fun r => patterns.map (fun p => (r, p)))) []

end GenArabicPasswords

namespace GenFromRoots

/-- Processing a concatenated pattern is processing its parts in turn,
threading the emitted-so-far accumulator. -/
theorem applyLoop_append (f ain lam : Char) (xs ys acc : List Char) :
    applyLoop f ain lam (xs ++ ys) acc = applyLoop f ain lam ys (applyLoop f ain lam xs acc) := by
  induction xs generalizing acc with
  | nil => rfl
  | cons c rest ih =>
    simp only [List.cons_append, applyLoop]
    split
    · exact ih _
    split
    · exact ih _
    split
    · exact ih _
    split
    · exact ih _
    · exact ih _

/-- A shadda at the head of the remaining pattern appends a copy of the
last emitted character (nothing when the accumulator is empty). -/
theorem applyLoop_shadda (f ain lam : Char) (p : List Char) (acc : List Char) :
    applyLoop f ain lam (arShadda :: p) acc = applyLoop f ain lam p (acc ++ acc.getLast?.toList) := by
  simp only [applyLoop]
  rw [if_neg (show ¬arShadda = arFa by decide), if_neg (show ¬arShadda = arAyn by decide),
    if_neg (show ¬arShadda = arLam by decide), if_pos trivial]

end GenFromRoots

namespace GenArabicPairs

/-- C2 counterexample: the generation-time variant of
`is_likely_arabic_word` (in `gen_arabic_pairs.py`) returns true on the
empty string, so the claim that every implementation of the filter
rejects the empty string is false. -/
theorem pairs_filter_accepts_empty : GenArabicPairs.is_likely_arabic_word [] = true := by
  decide

/-- C2 (amended): the standalone filter of `filter_arabic.py` rejects the
empty string, while the generation-time variant of `gen_arabic_pairs.py`,
which has no empty-string check, accepts it. -/
theorem empty_string_verdicts :
    FilterArabic.is_likely_arabic_word [] = false ∧
    GenArabicPairs.is_likely_arabic_word [] = true := by
  decide

end GenArabicPairs

/-- C3: whenever the root does not have exactly 3 characters, both
implementations of `apply_pattern` return `None` (no exception is
raised), for every pattern. -/
theorem apply_pattern_none_of_root_length_ne_three (root pattern : List Char)
    (h : root.length ≠ 3) :
    GenFromRoots.apply_pattern root pattern = none ∧
    GenArabicPasswords.apply_pattern root pattern = none := by
  match root with
  | [] => exact ⟨rfl, rfl⟩
  | [a] => exact ⟨rfl, rfl⟩
  | [a, b] => exact ⟨rfl, rfl⟩
  | [a, b, c] => exact absurd rfl h
  | a :: b :: c :: d :: t => exact ⟨rfl, rfl⟩

/-- Witness for C3 at the empty root and empty pattern. -/
theorem apply_pattern_none_of_root_length_ne_three_witness :
    ([] : List Char).length ≠ 3 ∧
    GenFromRoots.apply_pattern [] [arFa] = none ∧
    GenArabicPasswords.apply_pattern [] [arFa] = none :=
  ⟨by decide, apply_pattern_none_of_root_length_ne_three [] [arFa] (by decide)⟩

/-- C5: on the root كتب, `apply_pattern` (in both `gen_from_roots.py` and
`gen_arabic_passwords.py`) yields كاتب for the pattern فاعل and مكتوب for
the pattern مفعول. -/
theorem apply_pattern_katib_maktub :
    GenFromRoots.apply_pattern [arKaf, arTa, arBa] [arFa, arAlef, arAyn, arLam]
      = some [arKaf, arAlef, arTa, arBa] ∧
    GenFromRoots.apply_pattern [arKaf, arTa, arBa] [arMim, arFa, arAyn, arWaw, arLam]
      = some [arMim, arKaf, arTa, arWaw, arBa] ∧
    GenArabicPasswords.apply_pattern [arKaf, arTa, arBa] [arFa, arAlef, arAyn, arLam]
      = some [arKaf, arAlef, arTa, arBa] ∧
    GenArabicPasswords.apply_pattern [arKaf, arTa, arBa] [arMim, arFa, arAyn, arWaw, arLam]
      = some [arMim, arKaf, arTa, arWaw, arBa] := by
  decide

/-- C1 counterexample: in `gen_arabic_passwords.py`, `apply_pattern` has
no shadda branch: on the root كتب and the one-symbol pattern consisting of
the gemination marker alone (nothing yet emitted), it emits the shadda
character itself instead of producing no character, so the claim is false
for that implementation. -/
theorem shadda_literal_in_passwords_variant :
    GenArabicPasswords.apply_pattern [arKaf, arTa, arBa] [arShadda] = some [arShadda] ∧
    some [arShadda] ≠ some ([] : List Char) := by
  decide

/-- C1 (amended): in `gen_from_roots.py`, `apply_pattern` treats the
gemination marker as a repeat of the immediately preceding emitted
character — splitting the pattern around a shadda, the characters emitted
after it start from the characters emitted before it extended by a copy of
their last element — and a shadda at the very start of the pattern
produces no character and no error; in `gen_arabic_passwords.py`,
`apply_pattern` instead emits the gemination marker literally. -/
theorem apply_pattern_shadda_characterization (f ain lam : Char) (p1 p2 : List Char) :
    GenFromRoots.apply_pattern [f, ain, lam] (p1 ++ arShadda :: p2) =
      some (GenFromRoots.applyLoop f ain lam p2
        (GenFromRoots.applyLoop f ain lam p1 [] ++
          (GenFromRoots.applyLoop f ain lam p1 []).getLast?.toList)) ∧
    GenFromRoots.apply_pattern [f, ain, lam] (arShadda :: p2) =
      GenFromRoots.apply_pattern [f, ain, lam] p2 ∧
    GenArabicPasswords.apply_pattern [f, ain, lam] (p1 ++ arShadda :: p2) =
      some (p1.map (GenArabicPasswords.substChar f ain lam) ++ arShadda ::
        p2.map (GenArabicPasswords.substChar f ain lam)) := by
  refine ⟨?_, ?_, ?_⟩
  · show some (GenFromRoots.applyLoop f ain lam (p1 ++ arShadda :: p2) []) = _
    rw [GenFromRoots.applyLoop_append, GenFromRoots.applyLoop_shadda]
  · show some (GenFromRoots.applyLoop f ain lam (arShadda :: p2) []) =
      some (GenFromRoots.applyLoop f ain lam p2 [])
    rw [GenFromRoots.applyLoop_shadda]
    rfl
  · show some ((p1 ++ arShadda :: p2).map (GenArabicPasswords.substChar f ain lam)) = _
    rw [List.map_append, List.map_cons]
    have hsh : GenArabicPasswords.substChar f ain lam arShadda = arShadda := by
      simp only [GenArabicPasswords.substChar]
      rw [if_neg (by decide), if_neg (by decide), if_neg (by decide)]
    rw [hsh]

namespace GenArabicPasswords

/-- The dedup loop of `generate_root_words` never emits a duplicate and
never emits a word already in `seen`. -/
theorem grwAux_nodup_not_seen (pairs : List (List Char × List Char)) :
    ∀ seen : List (List Char),
      (grwAux pairs seen).Nodup ∧ ∀ w ∈ grwAux pairs seen, w ∉ seen := by
  induction pairs with
  | nil =>
    intro seen
    exact ⟨List.nodup_nil, by intro w hw; cases hw⟩
  | cons hd rest ih =>
    intro seen
    obtain ⟨root, pattern⟩ := hd
    rcases happ : apply_pattern root pattern with _ | word
    · simpa only [grwAux, happ] using ih seen
    · simp only [grwAux, happ]
      split
      · rename_i hcond
        obtain ⟨hne, hnotseen, hbd⟩ := hcond
        obtain ⟨ihnodup, ihmem⟩ := ih (word :: seen)
        constructor
        · exact List.nodup_cons.mpr
            ⟨fun hmem => (ihmem word hmem) (List.mem_cons_self _ _), ihnodup⟩
        · intro w hw
          rcases List.mem_cons.mp hw with h1 | h2
          · subst h1
            exact hnotseen
          · exact fun hws => (ihmem w h2) (List.mem_cons_of_mem _ hws)
      · exact ih seen

end GenArabicPasswords

/-- C4: over a fixed (roots, patterns) input, `generate_root_words` of
`gen_arabic_passwords.py` never yields the same string twice: its output
list has no duplicates. -/
theorem generate_root_words_nodup (roots patterns : List (List Char)) :
    (GenArabicPasswords.generate_root_words roots patterns).Nodup :=
  (GenArabicPasswords.grwAux_nodup_not_seen _ []).1

/-- C6: both implementations of the morphological filter reject every
string of length at least 4 that contains no vowel letter from
{ا, و, ي}. -/
theorem filters_reject_vowelless_long (seq : List Char) (h4 : 4 ≤ seq.length)
    (hv : ∀ c ∈ seq, c ∉ VOWELS) :
    FilterArabic.is_likely_arabic_word seq = false ∧
    GenArabicPairs.is_likely_arabic_word seq = false := by
  have hany : seq.any (fun c => decide (c ∈ VOWELS)) = false := by
    rw [List.any_eq_false]
    intro c hc
    simpa using hv c hc
  constructor
  · cases seq with
    | nil => simp at h4
    | cons f t =>
      simp only [FilterArabic.is_likely_arabic_word]
      rw [if_pos ⟨h4, hany⟩]
  · simp only [GenArabicPairs.is_likely_arabic_word]
    rw [if_pos ⟨h4, hany⟩]

/-- Witness for C6 at the vowel-free 4-letter string بتبت. -/
theorem filters_reject_vowelless_long_witness :
    4 ≤ ([arBa, arTa, arBa, arTa] : List Char).length ∧
    (∀ c ∈ ([arBa, arTa, arBa, arTa] : List Char), c ∉ VOWELS) ∧
    FilterArabic.is_likely_arabic_word [arBa, arTa, arBa, arTa] = false ∧
    GenArabicPairs.is_likely_arabic_word [arBa, arTa, arBa, arTa] = false :=
  ⟨by decide, by decide, filters_reject_vowelless_long _ (by decide) (by decide)⟩

namespace FilterArabic

/-- The standalone filter rejects any string with ة or ى before the final
position (membership in `seq[:-1]`). -/
theorem filter_false_of_nonfinal_taa_maqsura (seq : List Char)
    (h : arTaM ∈ seq.dropLast ∨ arMaqsura ∈ seq.dropLast) :
    is_likely_arabic_word seq = false := by
  cases seq with
  | nil => rfl
  | cons f t =>
    simp only [is_likely_arabic_word]
    repeat split <;> try rfl

/-- The standalone filter rejects any string starting with ؤ or ئ. -/
theorem filter_false_of_initial_waw_ya_hamza (first : Char) (rest : List Char)
    (h : first = arWawHamza ∨ first = arYaHamza) :
    is_likely_arabic_word (first :: rest) = false := by
  simp only [is_likely_arabic_word]
  repeat split <;> try rfl

end FilterArabic

/-- C7: the standalone filter of `filter_arabic.py` rejects every string
in which ة (taa marbuta) or ى (alef maqsura) occurs at a position other
than the final one, and rejects every string whose first character is ؤ
or ئ. -/
theorem standalone_filter_positional_rejections :
    (∀ (seq : List Char) (i : Nat) (hi : i < seq.length), i ≠ seq.length - 1 →
      seq.get ⟨i, hi⟩ = arTaM ∨ seq.get ⟨i, hi⟩ = arMaqsura →
      FilterArabic.is_likely_arabic_word seq = false) ∧
    (∀ (first : Char) (rest : List Char),
      first = arWawHamza ∨ first = arYaHamza →
      FilterArabic.is_likely_arabic_word (first :: rest) = false) := by
  constructor
  · intro seq i hi hne hc
    have hlt : i < seq.dropLast.length := by
      rw [List.length_dropLast]
      omega
    have hget : seq.dropLast.get ⟨i, hlt⟩ = seq.get ⟨i, hi⟩ := by
      simp [List.get_eq_getElem, List.getElem_dropLast]
    apply FilterArabic.filter_false_of_nonfinal_taa_maqsura
    rcases hc with hc | hc
    · refine Or.inl ?_
      rw [← hc, ← hget]
      exact List.get_mem _ _ _
    · refine Or.inr ?_
      rw [← hc, ← hget]
      exact List.get_mem _ _ _
  · exact FilterArabic.filter_false_of_initial_waw_ya_hamza

/-- Witness for C7: ة at position 0 of a 2-letter string, and an initial
ؤ, are both rejected. -/
theorem standalone_filter_positional_rejections_witness :
    FilterArabic.is_likely_arabic_word [arTaM, arBa] = false ∧
    FilterArabic.is_likely_arabic_word [arWawHamza, arBa] = false :=
  ⟨standalone_filter_positional_rejections.1 [arTaM, arBa] 0 (by decide) (by decide)
      (Or.inl (by decide)),
    standalone_filter_positional_rejections.2 arWawHamza [arBa] (Or.inl rfl)⟩

/-- C10: the standalone filter is at least as strict as the
generation-time variant: every string it accepts is also accepted by
`is_likely_arabic_word` of `gen_arabic_pairs.py`. -/
theorem standalone_filter_stricter_than_pairs (seq : List Char)
    (h : FilterArabic.is_likely_arabic_word seq = true) :
    GenArabicPairs.is_likely_arabic_word seq = true := by
  cases seq with
  | nil => simp [FilterArabic.is_likely_arabic_word] at h
  | cons f t =>
    simp only [FilterArabic.is_likely_arabic_word] at h
    simp only [GenArabicPairs.is_likely_arabic_word]
    split at h
    · simp at h
    · rename_i h1
      split at h
      · simp at h
      · rename_i h2
        split at h
        · simp at h
        · rename_i h3
          rw [if_neg h1, if_neg h2, if_neg h3]

/-- Witness for C10 at the accepted word كتب. -/
theorem standalone_filter_stricter_than_pairs_witness :
    FilterArabic.is_likely_arabic_word [arKaf, arTa, arBa] = true ∧
    GenArabicPairs.is_likely_arabic_word [arKaf, arTa, arBa] = true :=
  ⟨by decide, standalone_filter_stricter_than_pairs _ (by decide)⟩

namespace FilterArabic

/-- Python's `line.rstrip('\n')`: remove every trailing newline
character. -/
def pyRstripNl (l : List Char) : List Char :=
  (l.reverse.dropWhile (fun c => c == '\n')).reverse

/-- The line-processing loop of `main` in `filter_arabic.py`: for each
input line, strip the trailing newline, and write the original line to
the output exactly when the filter accepts the stripped word. -/
def main : List (List Char) → List (List Char)
  | [] => []
  | line :: rest =>
    if is_likely_arabic_word (pyRstripNl line) then line :: main rest
    else main rest

/-- Removal of the single trailing newline of a line, the form in which
the specification describes a line's content. -/
def stripNl (line : List Char) : List Char :=
  if line.getLast? = some '\n' then line.dropLast else line

/-- `dropWhile` of newlines is the identity on a newline-free list. -/
theorem dropWhile_nl_of_not_mem (m : List Char) (hm : '\n' ∉ m) :
    m.dropWhile (fun c => c == '\n') = m := by
  cases m with
  | nil => rfl
  | cons a as =>
    rw [List.dropWhile_cons]
    have ha : (a == '\n') = false := by
      rw [beq_eq_false_iff_ne]
      intro e
      exact hm (e ▸ List.mem_cons_self _ _)
    rw [ha]
    simp

/-- `rstrip` is the identity on a newline-free line. -/
theorem pyRstripNl_of_not_mem (m : List Char) (hm : '\n' ∉ m) :
    pyRstripNl m = m := by
  unfold pyRstripNl
  rw [dropWhile_nl_of_not_mem _ (by simpa using hm), List.reverse_reverse]

/-- `rstrip` removes the single trailing newline of a line whose body is
newline-free. -/
theorem pyRstripNl_append_nl (m : List Char) (hm : '\n' ∉ m) :
    pyRstripNl (m ++ ['\n']) = m := by
  unfold pyRstripNl
  rw [List.reverse_append]
  simp only [List.reverse_cons, List.reverse_nil, List.nil_append, List.singleton_append]
  rw [List.dropWhile_cons]
  simp only [beq_self_eq_true, if_true]
  rw [dropWhile_nl_of_not_mem _ (by simpa using hm), List.reverse_reverse]

/-- On a well-formed input line (no newline before the final position),
Python's `rstrip('\n')` coincides with removing the single trailing
newline. -/
theorem pyRstripNl_eq_stripNl (line : List Char) (hw : '\n' ∉ line.dropLast) :
    pyRstripNl line = stripNl line := by
  cases hlast : line.getLast? with
  | none =>
    have : line = [] := by
      cases line with
      | nil => rfl
      | cons a as => simp [List.getLast?_concat] at hlast
    subst this
    rfl
  | some c =>
    have hne : line ≠ [] := by
      intro e
      subst e
      simp at hlast
    have hline : line.dropLast ++ [c] = line := by
      have h1 : line.getLast hne = c := by
        rw [List.getLast?_eq_getLast line hne] at hlast
        exact Option.some_injective _ hlast
      rw [← h1]
      exact List.dropLast_append_getLast hne
    by_cases hc : c = '\n'
    · subst hc
      have h2 : stripNl line = line.dropLast := by
        simp only [stripNl]
        rw [if_pos hlast]
      rw [h2, ← hline, pyRstripNl_append_nl _ hw]
      simp [hline]
    · have hnl : '\n' ∉ line := by
        intro hmem
        rw [← hline] at hmem
        rcases List.mem_append.mp hmem with h1 | h1
        · exact hw h1
        · simp at h1
          exact hc h1.symm
      rw [pyRstripNl_of_not_mem _ hnl]
      simp only [stripNl]
      rw [if_neg]
      rw [hlast]
      intro e
      exact hc (Option.some_injective _ e)

end FilterArabic

/-- C8: on well-formed input lines (no newline character before the final
position, as delivered by line-wise reading), the line loop of
`filter_arabic.py` writes exactly the lines whose newline-stripped
content the filter accepts, each written unmodified: the output is the
input filtered by the verdict on the stripped line. -/
theorem filter_main_writes_iff_accepted (lines : List (List Char))
    (hw : ∀ line ∈ lines, '\n' ∉ line.dropLast) :
    FilterArabic.main lines =
      lines.filter
        (fun line => FilterArabic.is_likely_arabic_word (FilterArabic.stripNl line)) := by
  induction lines with
  | nil => rfl
  | cons line rest ih =>
    have h1 : '\n' ∉ line.dropLast := hw line (List.mem_cons_self _ _)
    have ih' := ih (fun l hl => hw l (List.mem_cons_of_mem _ hl))
    simp only [FilterArabic.main, List.filter_cons]
    rw [FilterArabic.pyRstripNl_eq_stripNl line h1, ih']

/-- Witness for C8: of the two lines كتب and ةب (each newline-terminated),
exactly the first survives, unmodified. -/
theorem filter_main_writes_iff_accepted_witness :
    (∀ line ∈ [[arKaf, arTa, arBa, '\n'], [arTaM, arBa, '\n']],
      '\n' ∉ line.dropLast) ∧
    FilterArabic.main [[arKaf, arTa, arBa, '\n'], [arTaM, arBa, '\n']] =
      [[arKaf, arTa, arBa, '\n'], [arTaM, arBa, '\n']].filter
        (fun line => FilterArabic.is_likely_arabic_word (FilterArabic.stripNl line)) :=
  ⟨by decide, filter_main_writes_iff_accepted _ (by decide)⟩

namespace GenFromRoots

/-- The 12-template `SIMPLE_PATTERNS` table of `gen_from_roots.py`:
فعل، فعّل، فاعل، فعيل، فعول، فعال، فعالة، مفعل، مفعول، افعل، فعلي، تفعيل. -/
def SIMPLE_PATTERNS : List (List Char) :=
  [[arFa, arAyn, arLam],
   [arFa, arAyn, arShadda, arLam],
   [arFa, arAlef, arAyn, arLam],
   [arFa, arAyn, arYa, arLam],
   [arFa, arAyn, arWaw, arLam],
   [arFa, arAyn, arAlef, arLam],
   [arFa, arAyn, arAlef, arLam, arTaM],
   [arMim, arFa, arAyn, arLam],
   [arMim, arFa, arAyn, arWaw, arLam],
   [arAlef, arFa, arAyn, arLam],
   [arFa, arAyn, arLam, arYa],
   [arTa, arFa, arAyn, arYa, arLam]]

/-- The full `PATTERNS` table of `gen_from_roots.py`: 31 (template,
description) pairs, in source order (including the two templates that
occur twice, فعول and افعال). -/
def PATTERNS : List (List Char × String) :=
  [([arFa, arAyn, arLam], "base verb"),
   ([arFa, arAyn, arShadda, arLam], "intensive"),
   ([arFa, arAlef, arAyn, arLam], "active participle"),
   ([arFa, arAyn, arYa, arLam], "adjective form"),
   ([arFa, arAyn, arWaw, arLam], "adjective form 2"),
   ([arFa, arAyn, arAlef, arLam], "noun form"),
   ([arFa, arAyn, arAlef, arLam, arTaM], "noun feminine"),
   ([arFa, arAlef, arAyn, arLam, arTaM], "feminine participle"),
   ([arMim, arFa, arAyn, arLam], "place/instrument"),
   ([arMim, arFa, arAyn, arLam, arTaM], "place feminine"),
   ([arMim, arFa, arAyn, arWaw, arLam], "passive participle"),
   ([arAlef, arFa, arAyn, arLam], "comparative/superlative"),
   ([arFa, arAyn, arLam, arAlef, arNun], "adjective ending"),
   ([arFa, arAyn, arLam, arTaM], "single instance"),
   ([arMim, arHha, arMim, arDal], "muhammad pattern"),
   ([arAlef, arHha, arMim, arDal], "ahmad pattern"),
   ([arFa, arAyn, arLam, arYa], "nisba adjective"),
   ([arFa, arAyn, arLam, arYa, arTaM], "nisba feminine"),
   ([arTa, arFa, arAyn, arYa, arLam], "verbal noun form II"),
   ([arMim, arFa, arAlef, arAyn, arLam, arTaM], "verbal noun form III"),
   ([arAlef, arFa, arAyn, arAlef, arLam], "verbal noun form IV"),
   ([arTa, arFa, arAyn, arShadda, arLam], "form V verb"),
   ([arTa, arFa, arAlef, arAyn, arLam], "form VI verb"),
   ([arAlef, arNun, arFa, arAyn, arAlef, arLam], "form VII noun"),
   ([arAlef, arFa, arTa, arAyn, arAlef, arLam], "form VIII noun"),
   ([arAlef, arSin, arTa, arFa, arAyn, arAlef, arLam], "form X noun"),
   ([arFa, arAyn, arWaw, arLam], "broken plural 1"),
   ([arAlef, arFa, arAyn, arAlef, arLam], "broken plural 2"),
   ([arFa, arAyn, arLam, arAlef, arHamza], "plural form"),
   ([arFa, arWaw, arAlef, arAyn, arLam], "plural form 2"),
   ([arMim, arFa, arAlef, arAyn, arYa, arLam], "plural form 3")]

/-- `has_bad_doubles` of `gen_from_roots.py`; its body is line-for-line
the one of `gen_arabic_passwords.py`, embedded once as
`GenArabicPasswords.has_bad_doubles`. -/
def has_bad_doubles (word : List Char) : Bool :=
  GenArabicPasswords.has_bad_doubles word

/-- The ASCII whitespace stripped by Python's `str.strip()`:
space, tab, newline, carriage return, vertical tab, form feed. -/
def pyIsSpace (c : Char) : Bool :=
  c == ' ' || c == '\t' || c == '\n' || c == '\r' ||
    c == Char.ofNat 0x0B || c == Char.ofNat 0x0C

/-- Python's `line.strip()` (ASCII whitespace). -/
def pyStrip (l : List Char) : List Char :=
  ((l.dropWhile pyIsSpace).reverse.dropWhile pyIsSpace).reverse

/-- One iteration of the `load_roots` loop: strip the line, skip it when
empty or a `#` comment, remove `-` and space separators, and keep the
result exactly when 3 characters remain. -/
def loadRootLine (line : List Char) : Option (List Char) :=
  let s := pyStrip line
  if s ≠ [] ∧ s.head? ≠ some '#' then
    let root := s.filter (fun c => !(c == '-') && !(c == ' '))
    if root.length = 3 then some root else none
  else none

/-- `load_roots` of `gen_from_roots.py` over the lines of the roots
file. -/
def load_roots (fileLines : List (List Char)) : List (List Char) :=
  fileLines.filterMap loadRootLine

/-- The digit alphabet `'0123456789'`. -/
def DIGITS : List Char :=
  ['0', '1', '2', '3', '4', '5', '6', '7', '8', '9']

/-- `itertools.product('0123456789', repeat=n)` joined to strings, in
product order (leftmost position varies slowest). -/
def digitTuples : Nat → List (List Char)
  | 0 => [[]]
  | n + 1 => DIGITS.flatMap (fun d => (digitTuples n).map (fun t => d :: t))

/-- `generate_digit_suffixes(min_digits, max_digits)`: the empty suffix
when `min_digits == 0`, then all digit strings of each length from
`max(1, min_digits)` to `max_digits`. -/
def generate_digit_suffixes (minD maxD : Nat) : List (List Char) :=
  (if minD = 0 then [[]] else []) ++
    (List.range' (max 1 minD) (maxD + 1 - max 1 minD)).flatMap digitTuples

/-- The generation loop of `main` in `gen_from_roots.py` over the
(root, pattern) pairs: a produced word is deduplicated against `seen`
(and recorded there even when it is then skipped for bad doubled
letters); each surviving word is printed once per digit suffix. -/
def gfrEmitAux (suffixes : List (List Char)) :
    List (List Char × List Char) → List (List Char) → List (List Char)
  | [], _ => []
  | (root, pattern) :: rest, seen =>
    match apply_pattern root pattern with
    | none => gfrEmitAux suffixes rest seen
    | some word =>
      if word ≠ [] ∧ word ∉ seen then
        if has_bad_doubles word then gfrEmitAux suffixes rest (word :: seen)
        else
          suffixes.map (fun s => word ++ s) ++ gfrEmitAux suffixes rest (word :: seen)
      else gfrEmitAux suffixes rest seen

/-- The state of the roots file named by `--roots`: absent (attempting to
open it raises `FileNotFoundError`), unreadable (opening raises an
`OSError` other than `FileNotFoundError`), or present with its lines. -/
inductive FileState
  | missing
  | unreadable
  | present (fileLines : List (List Char))

/-- The command-line options of `gen_from_roots.py` relevant to control
flow, already parsed: `--patterns`, `--full`, `--estimate` and the digit
range from `--digits`. -/
structure Args where
  patternsFlag : Bool
  fullFlag : Bool
  estimateFlag : Bool
  minDigits : Nat
  maxDigits : Nat

/-- The observable outcome of a run: the candidate lines written to
standard output, the process exit status, and whether an error was
reported to the user (on standard error). -/
structure Outcome where
  out : List (List Char)
  exitCode : Nat
  errorReported : Bool

/-- The example root كتب used by the `--patterns` listing. -/
def ktbRoot : List Char := [arKaf, arTa, arBa]

/-- The stdout of the `--patterns` branch: a header line and one line per
entry of `PATTERNS` showing the template and its example derived from
كتب (the alignment padding and the description column are elided). -/
def patternsListing : List (List Char) :=
  "Available patterns:".toList ::
    PATTERNS.map (fun pd => pd.1 ++ (apply_pattern ktbRoot pd.1).getD [])

/-- The control flow of `main` in `gen_from_roots.py`. The `--patterns`
branch returns before the roots file is touched. Otherwise the roots file
is loaded inside `try`: a `FileNotFoundError` is caught, an error message
is printed to stderr and `sys.exit(1)` is called before anything is
written to stdout; any other `OSError` (unreadable file) propagates
uncaught, which also terminates the interpreter with a traceback on
stderr and exit status 1 and no stdout output. With the file present,
the `--estimate` branch writes only to stderr; otherwise the generation
loop prints the candidates. -/
def gfr_main (fs : FileState) (args : Args) : Outcome :=
  if args.patternsFlag then ⟨patternsListing, 0, false⟩
  else
    match fs with
    | FileState.missing => ⟨[], 1, true⟩
    | FileState.unreadable => ⟨[], 1, true⟩
    | FileState.present fileLines =>
      let patterns := if args.fullFlag then PATTERNS.map Prod.fst else SIMPLE_PATTERNS
      let roots := load_roots fileLines
      if args.estimateFlag then ⟨[], 0, false⟩
      else
        ⟨gfrEmitAux (generate_digit_suffixes args.minDigits args.maxDigits)
          (roots.flatMap (fun r => patterns.map (fun p => (r, p)))) [],
          0, false⟩

end GenFromRoots

/-- C9: when the roots file is missing or unreadable (and the run is not
the `--patterns` listing, which never opens the file), `gen_from_roots.py`
fails at startup: the error is reported, the process exits with a
non-zero status, and no candidate line is written to standard output. -/
theorem gfr_main_fatal_on_missing_roots (fs : GenFromRoots.FileState)
    (args : GenFromRoots.Args) (hp : args.patternsFlag = false)
    (hfs : fs = GenFromRoots.FileState.missing ∨ fs = GenFromRoots.FileState.unreadable) :
    (GenFromRoots.gfr_main fs args).exitCode ≠ 0 ∧
    (GenFromRoots.gfr_main fs args).out = [] ∧
    (GenFromRoots.gfr_main fs args).errorReported = true := by
  rcases hfs with h | h <;> subst h <;>
    simp [GenFromRoots.gfr_main, hp]

/-- Witness for C9: a default-argument run against a missing roots file. -/
theorem gfr_main_fatal_on_missing_roots_witness :
    (GenFromRoots.Args.mk false false false 0 0).patternsFlag = false ∧
    (GenFromRoots.gfr_main GenFromRoots.FileState.missing
      (GenFromRoots.Args.mk false false false 0 0)).exitCode ≠ 0 ∧
    (GenFromRoots.gfr_main GenFromRoots.FileState.missing
      (GenFromRoots.Args.mk false false false 0 0)).out = [] ∧
    (GenFromRoots.gfr_main GenFromRoots.FileState.missing
      (GenFromRoots.Args.mk false false false 0 0)).errorReported = true :=
  ⟨rfl, gfr_main_fatal_on_missing_roots GenFromRoots.FileState.missing
    (GenFromRoots.Args.mk false false false 0 0) rfl (Or.inl rfl)⟩
